import Mathlib

/-!
Shallow embedding and verification of the bus punctuality analysis core of
the repository (`bus_project/data_analysis/analyze_data.py` together with
`bus_project/data_analysis/utils.py`).

Modelling conventions:
* Python floats are modelled as real numbers.
* Python `datetime` values are modelled as real seconds measured from a
  fixed midnight; the `hour`, `minute` and `second` fields are recovered by
  integer truncation, as Python does (microseconds are dropped).
* Python dictionaries whose iteration order matters (`times_at_stops`, the
  per-line route dictionary) are modelled as association lists in insertion
  order; dictionaries used only for lookup (`stops_coords`, `schedules`,
  `routes_data` at the top level) are modelled as functions into `Option`.
* Bus stop identifiers (strings in the JSON data) are modelled as natural
  numbers; only equality and ordering of identifiers is ever used.
* A Python expression that raises an uncaught exception is modelled by an
  `Option`-valued function returning `none` (`KeyError`, `TypeError` and
  `ZeroDivisionError` are distinguished only in comments).
-/

namespace BusProject

/-- A coordinate pair `(longitude, latitude)` in decimal degrees. -/
abbrev Point : Type := ℝ × ℝ

/-- Degree-to-radian conversion (Python `math.radians`). -/
noncomputable def radians (x : ℝ) : ℝ := x * Real.pi / 180

/-- Two-argument arctangent (Python `math.atan2`, C convention). -/
noncomputable def atan2 (y x : ℝ) : ℝ :=
  if 0 < x then Real.arctan (y / x)
  else if x = 0 then
    if 0 < y then Real.pi / 2 else if y < 0 then -(Real.pi / 2) else 0
  else
    if 0 ≤ y then Real.arctan (y / x) + Real.pi
    else Real.arctan (y / x) - Real.pi

/-- `haversine` from `bus_project/data_analysis/utils.py`: great-circle
distance in kilometres between two points given as decimal-degree
longitude/latitude. -/
noncomputable def haversine (lon1 lat1 lon2 lat2 : ℝ) : ℝ :=
  let lon1r := radians lon1
  let lat1r := radians lat1
  let lon2r := radians lon2
  let lat2r := radians lat2
  let dlon := lon2r - lon1r
  let dlat := lat2r - lat1r
  let a := Real.sin (dlat / 2) ^ 2 +
    Real.cos lat1r * Real.cos lat2r * Real.sin (dlon / 2) ^ 2
  let c := 2 * atan2 (Real.sqrt a) (Real.sqrt (1 - a))
  c * 6371

/-- The haversine distance from any point to itself is zero. -/
theorem haversine_self (lon lat : ℝ) : haversine lon lat lon lat = 0 := by
  simp [haversine, atan2, Real.sqrt_one]

/-- The haversine distance between antipodal points is exactly `π * 6371`. -/
theorem haversine_antipode (lon lat : ℝ) :
    haversine lon lat (lon + 180) (-lat) = Real.pi * 6371 := by
  simp only [haversine]
  have hA : Real.sin ((radians (-lat) - radians lat) / 2) ^ 2 +
      Real.cos (radians lat) * Real.cos (radians (-lat)) *
        Real.sin ((radians (lon + 180) - radians lon) / 2) ^ 2 = 1 := by
    have h1 : (radians (-lat) - radians lat) / 2 = -(radians lat) := by
      unfold radians; ring
    have h2 : (radians (lon + 180) - radians lon) / 2 = Real.pi / 2 := by
      unfold radians; field_simp; ring
    have h3 : radians (-lat) = -(radians lat) := by unfold radians; ring
    rw [h1, h2, h3, Real.sin_neg, Real.cos_neg, Real.sin_pi_div_two]
    have := Real.sin_sq_add_cos_sq (radians lat)
    ring_nf
    ring_nf at this
    linarith
  rw [hA]
  norm_num [atan2, Real.sqrt_one]
  ring

/-- The haversine distance is symmetric in its two points. -/
theorem haversine_comm (lon1 lat1 lon2 lat2 : ℝ) :
    haversine lon1 lat1 lon2 lat2 = haversine lon2 lat2 lon1 lat1 := by
  simp only [haversine]
  have e1 : Real.sin ((radians lat2 - radians lat1) / 2) ^ 2 =
      Real.sin ((radians lat1 - radians lat2) / 2) ^ 2 := by
    rw [show (radians lat2 - radians lat1) / 2 =
      -((radians lat1 - radians lat2) / 2) by ring, Real.sin_neg]
    ring
  have e2 : Real.sin ((radians lon2 - radians lon1) / 2) ^ 2 =
      Real.sin ((radians lon1 - radians lon2) / 2) ^ 2 := by
    rw [show (radians lon2 - radians lon1) / 2 =
      -((radians lon1 - radians lon2) / 2) by ring, Real.sin_neg]
    ring
  rw [e1, e2, mul_comm (Real.cos (radians lat1)) (Real.cos (radians lat2))]

/-- Concrete antipodal distance used by the witnesses: `(190, -20)` is the
antipode of `(10, 20)`. -/
theorem hav_far : haversine 190 (-20) 10 20 = Real.pi * 6371 := by
  rw [haversine_comm]
  have h := haversine_antipode 10 20
  norm_num at h
  exact h

/-- A bus stop record as it appears in the route table; the analysis code
only ever reads the `busstop_id` and `busstop_nr` fields. -/
structure Stop where
  busstop_id : ℕ
  busstop_nr : ℕ
deriving DecidableEq

/-- The composite dictionary key built from a stop record. -/
def Stop.key (s : Stop) : ℕ × ℕ := (s.busstop_id, s.busstop_nr)

/-- The `stops_coords` dictionary: stop key to `(lon, lat)`. -/
abbrev StopsCoords : Type := ℕ × ℕ → Option Point

/-- The `routes_data` dictionary: a line maps to a dictionary of named
routes, each an ordered stop list.  Route names are never read by the code
(only the route values are used, in insertion order), so the routes of a
line are modelled as the list of stop lists in insertion order. -/
abbrev RoutesData : Type := ℕ → Option (List (List Stop))

/-- Loop of `nearest_stop_from_list`: `acc` is the running
`(closest_stop, closest_distance)` pair, initialised to `(None, 0)`. -/
noncomputable def nsflLoop (point1 point2 : Point) (stops_coords : StopsCoords) :
    List Stop → Option Stop × ℝ → Option Stop × ℝ
  | [], acc => acc
  | stop :: rest, acc =>
    match stops_coords stop.key with
    | none => nsflLoop point1 point2 stops_coords rest acc
    | some (stop_lon, stop_lat) =>
      let distance := min (haversine point1.1 point1.2 stop_lon stop_lat)
        (haversine point2.1 point2.2 stop_lon stop_lat)
      if acc.1 = none ∨ distance < acc.2 then
        nsflLoop point1 point2 stops_coords rest (some stop, distance)
      else
        nsflLoop point1 point2 stops_coords rest acc

/-- `nearest_stop_from_list` from `analyze_data.py`. -/
noncomputable def nearest_stop_from_list (point1 point2 : Point)
    (stops : List Stop) (stops_coords : StopsCoords) : Option Stop × ℝ :=
  nsflLoop point1 point2 stops_coords stops (none, 0)

/-- Loop of `nearest_stop` over the routes of a line. -/
noncomputable def nsLoop (point1 point2 : Point) (stops_coords : StopsCoords) :
    List (List Stop) → Option Stop × ℝ → Option Stop × ℝ
  | [], acc => acc
  | stops :: rest, acc =>
    let current := nearest_stop_from_list point1 point2 stops stops_coords
    if acc.1 = none ∨ current.2 < acc.2 then
      nsLoop point1 point2 stops_coords rest current
    else
      nsLoop point1 point2 stops_coords rest acc

/-- `nearest_stop` from `analyze_data.py`.  Subscripting `routes_data` with
an absent line raises `KeyError`, modelled as `none`. -/
noncomputable def nearest_stop (point1 point2 : Point) (line : ℕ)
    (stops_coords : StopsCoords) (routes_data : RoutesData) :
    Option (Option Stop × ℝ) :=
  (routes_data line).map fun routes =>
    nsLoop point1 point2 stops_coords routes (none, 0)

/-- The `hour` field of a Python `datetime`, the latter modelled as real
seconds from a fixed midnight (Python truncates sub-second parts). -/
noncomputable def dtHour (t : ℝ) : ℤ := ⌊t⌋ / 3600 % 24

/-- The `minute` field of a timestamp, by integer truncation. -/
noncomputable def dtMinute (t : ℝ) : ℤ := ⌊t⌋ / 60 % 60

/-- The `second` field of a timestamp, by integer truncation. -/
noncomputable def dtSecond (t : ℝ) : ℤ := ⌊t⌋ % 60

/-- `get_time_distance` from `analyze_data.py`: difference of the two
times-of-day in seconds, ignoring the date. -/
noncomputable def get_time_distance (time1 time2 : ℝ) : ℤ :=
  (dtHour time2 - dtHour time1) * 3600 +
    (dtMinute time2 - dtMinute time1) * 60 +
    (dtSecond time2 - dtSecond time1)

/-- Seconds-of-day of a timestamp, recovered from its clock fields. -/
noncomputable def secondsOfDay (t : ℝ) : ℤ :=
  dtHour t * 3600 + dtMinute t * 60 + dtSecond t

/-- `approx_time_at_stop` from `analyze_data.py`.  The division raises
`ZeroDivisionError` when both distances are zero, modelled as `none`. -/
noncomputable def approx_time_at_stop (time1 time2 : ℝ)
    (point1 point2 point_stop : Point) : Option ℝ :=
  let d1 := haversine point1.1 point1.2 point_stop.1 point_stop.2
  let d2 := haversine point2.1 point2.2 point_stop.1 point_stop.2
  if d1 + d2 = 0 then none
  else some (time1 + (time2 - time1) * (d1 / (d1 + d2)))

/-- One entry of the `Measurements` list of a vehicle.  The time string is
stored already parsed: `none` models a string on which `datetime.strptime`
raises, triggering the skip of the measurement pair. -/
structure Measurement where
  time : Option ℝ
  lat : ℝ
  lon : ℝ

/-- The per-vehicle record: its `Lines` field and its `Measurements`. -/
structure Bus where
  lines : ℕ
  measurements : List Measurement

/-- The loop of `get_punctualities` over consecutive measurement pairs.
A `none` result models an uncaught exception aborting the whole call. -/
noncomputable def punctLoop (line : ℕ) (routes_data : RoutesData)
    (stops_coords : StopsCoords) :
    List Measurement → Option (List (ℝ × Stop × ℝ))
  | [] => some []
  | [_] => some []
  | m1 :: m2 :: rest =>
    match m1.time, m2.time with
    | some time1, some time2 =>
      let point1 : Point := (m1.lon, m1.lat)
      let point2 : Point := (m2.lon, m2.lat)
      match nearest_stop point1 point2 line stops_coords routes_data with
      | none => none            -- KeyError on the route table
      | some (none, _) => none  -- TypeError: subscripting None
      | some (some closest_stop, closest_distance) =>
        match stops_coords closest_stop.key with
        | none => none          -- KeyError on the coordinate table
        | some stop_point =>
          match approx_time_at_stop time1 time2 point1 point2 stop_point with
          | none => none        -- ZeroDivisionError
          | some time_at_closest =>
            (punctLoop line routes_data stops_coords (m2 :: rest)).map
              fun r => (time_at_closest, closest_stop, closest_distance) :: r
    | _, _ => punctLoop line routes_data stops_coords (m2 :: rest)

/-- `get_punctualities` from `analyze_data.py`. -/
noncomputable def get_punctualities (bus : Bus) (routes_data : RoutesData)
    (stops_coords : StopsCoords) : Option (List (ℝ × Stop × ℝ)) :=
  punctLoop bus.lines routes_data stops_coords bus.measurements

/-- First value stored under a key in an association list (dict lookup). -/
def alistFind (k : ℕ × ℕ) : List ((ℕ × ℕ) × ℝ × ℝ) → Option (ℝ × ℝ)
  | [] => none
  | (k1, v) :: rest => if k1 = k then some v else alistFind k rest

/-- Overwrite the value stored under an existing key, keeping its position
(dict assignment for a present key). -/
def alistSet (k : ℕ × ℕ) (v : ℝ × ℝ) :
    List ((ℕ × ℕ) × ℝ × ℝ) → List ((ℕ × ℕ) × ℝ × ℝ)
  | [] => []
  | (k1, v1) :: rest =>
    if k1 = k then (k1, v) :: rest else (k1, v1) :: alistSet k v rest

/-- The accumulation loop of `get_times_at_stops`, over the punctualities;
the accumulator is the `times_at_stops` dict in insertion order. -/
noncomputable def timesLoop : List (ℝ × Stop × ℝ) → List ((ℕ × ℕ) × ℝ × ℝ) →
    List ((ℕ × ℕ) × ℝ × ℝ)
  | [], acc => acc
  | (time, stop, dist) :: rest, acc =>
    let key := stop.key
    match alistFind key acc with
    | none => timesLoop rest (acc ++ [(key, time, dist)])
    | some (_, d0) =>
      if d0 > dist then timesLoop rest (alistSet key (time, dist) acc)
      else timesLoop rest acc

/-- Python tuple comparison on the `(datetime, stop_key)` pairs handed to
`sorted`: lexicographic order. -/
def visitLE (a b : ℝ × ℕ × ℕ) : Prop :=
  a.1 < b.1 ∨ (a.1 = b.1 ∧ (a.2.1 < b.2.1 ∨ (a.2.1 = b.2.1 ∧ a.2.2 ≤ b.2.2)))

noncomputable instance : DecidableRel visitLE := fun a b => by
  unfold visitLE; infer_instance

theorem visitLE_total : ∀ a b, visitLE a b ∨ visitLE b a := by
  intro a b
  unfold visitLE
  rcases lt_trichotomy a.1 b.1 with h | h | h
  · exact Or.inl (Or.inl h)
  · have h2 : (a.2.1 < b.2.1 ∨ (a.2.1 = b.2.1 ∧ a.2.2 ≤ b.2.2)) ∨
        (b.2.1 < a.2.1 ∨ (b.2.1 = a.2.1 ∧ b.2.2 ≤ a.2.2)) := by omega
    rcases h2 with h2 | h2
    · exact Or.inl (Or.inr ⟨h, h2⟩)
    · exact Or.inr (Or.inr ⟨h.symm, h2⟩)
  · exact Or.inr (Or.inl h)

theorem visitLE_trans : ∀ a b c, visitLE a b → visitLE b c → visitLE a c := by
  intro a b c hab hbc
  unfold visitLE at hab hbc ⊢
  rcases hab with h | ⟨e, h⟩ <;> rcases hbc with h2 | ⟨e2, h2⟩
  · exact Or.inl (lt_trans h h2)
  · exact Or.inl (e2 ▸ h)
  · exact Or.inl (e ▸ h2)
  · exact Or.inr ⟨e.trans e2, by omega⟩

instance : IsTotal (ℝ × ℕ × ℕ) visitLE := ⟨visitLE_total⟩

instance : IsTrans (ℝ × ℕ × ℕ) visitLE := ⟨visitLE_trans⟩

/-- `get_times_at_stops` from `analyze_data.py`: keep the closest estimate
per stop key, then sort the `(time, key)` pairs as Python `sorted` does on
tuples.  The Python sort is uniquely determined here because distinct dict
keys make the lexicographic order strict on the list elements. -/
noncomputable def get_times_at_stops (punctualities : List (ℝ × Stop × ℝ)) :
    List (ℝ × ℕ × ℕ) :=
  List.insertionSort visitLE
    ((timesLoop punctualities []).map fun e => (e.2.1, e.1))

/-- The `schedules` dictionary: `(busstop_id, busstop_nr, line)` maps to the
list of schedule entries, each being its parsed `time` field.  `none` models
an entry on which `datetime.strptime` raises; a parsed `%H:%M:%S` value is
the time of day in seconds. -/
abbrev Schedules : Type := ℕ × ℕ × ℕ → Option (List (Option ℝ))

/-- Candidate delays for one visit: signed time difference against each
parseable scheduled time, kept when above the 120 s early tolerance and
clamped at 0. -/
noncomputable def visitDifferences (time : ℝ) (scheds : List (Option ℝ)) :
    List ℤ :=
  scheds.filterMap fun s =>
    s.bind fun sched =>
      let d := get_time_distance time sched
      if d > -120 then some (max 0 d) else none

/-- The loop of `get_list_delays`; `none` models the `KeyError` raised by a
missing schedules entry for the visited stop and line. -/
noncomputable def delaysLoop (line : ℕ) (schedules : Schedules) :
    List (ℝ × ℕ × ℕ) → Option (List ℤ)
  | [] => some []
  | (time, k) :: rest =>
    match schedules (k.1, k.2, line) with
    | none => none
    | some scheds =>
      let differences := visitDifferences time scheds
      match differences.min? with
      | none => delaysLoop line schedules rest
      | some m => (delaysLoop line schedules rest).map fun r => m :: r

/-- `get_list_delays` from `analyze_data.py`. -/
noncomputable def get_list_delays (bus : Bus) (schedules : Schedules)
    (times_at_stops : List (ℝ × ℕ × ℕ)) : Option (List ℤ) :=
  delaysLoop bus.lines schedules times_at_stops

/-- `numpy.median` on a list of integers (modelled from the documented
behaviour of this library function): sort, take the middle element, or the
mean of the two middle elements for even length.  The value on the empty
list is irrelevant, the caller guards emptiness. -/
def npMedian (l : List ℤ) : ℚ :=
  let s := List.insertionSort (fun a b : ℚ => a ≤ b) (l.map fun z => (z : ℚ))
  let n := s.length
  if n % 2 = 1 then s.getD (n / 2) 0
  else (s.getD (n / 2 - 1) 0 + s.getD (n / 2) 0) / 2

/-- `get_median_delay` from `analyze_data.py`.  The outer `Option` models an
uncaught exception; the inner one is the Python `None` result. -/
noncomputable def get_median_delay (bus : Bus) (routes_data : RoutesData)
    (stops_coords : StopsCoords) (schedules : Schedules) :
    Option (Option ℚ) :=
  match routes_data bus.lines with
  | none => some none
  | some _ =>
    match get_punctualities bus routes_data stops_coords with
    | none => none
    | some punctualities =>
      match get_list_delays bus schedules (get_times_at_stops punctualities) with
      | none => none
      | some delays =>
        if delays = [] then some none
        else
          let final_delay := npMedian delays
          if final_delay < 3600 then some (some (final_delay / 60))
          else some none

/-! ### Concrete inputs used by witnesses and counterexamples -/

/-- A stop with key `(1, 2)`, present in the coordinate table. -/
def stopA : Stop := ⟨1, 2⟩

/-- A stop with key `(3, 4)`, absent from the coordinate table. -/
def stopB : Stop := ⟨3, 4⟩

/-- A coordinate table knowing only `stopA`, at `(lon, lat) = (10, 20)`. -/
noncomputable def coordsC : StopsCoords := fun k =>
  if k = (1, 2) then some ((10 : ℝ), (20 : ℝ)) else none

/-- A route table where line `7` has one route consisting of `stopA`. -/
def routesR : RoutesData := fun l => if l = 7 then some [[stopA]] else none

/-- A route table where line `7` has one route consisting of the
coordinate-less `stopB`. -/
def routesRB : RoutesData := fun l => if l = 7 then some [[stopB]] else none

/-- A route table where line `7` has two routes: `[stopA]` followed by the
all-unmatched `[stopB]`. -/
def routesRAB : RoutesData := fun l =>
  if l = 7 then some [[stopA], [stopB]] else none

/-- A two-measurement vehicle on line `7`: at `10:00:00` it is at
`(190, -20)`, the antipode of `stopA`; at `10:01:00` it sits exactly on
`stopA` at `(10, 20)`. -/
def busB : Bus := ⟨7, [⟨some 36000, -20, 190⟩, ⟨some 36060, 20, 10⟩]⟩

/-- Timetable for `(stopA, line 7)` with a single `11:01:00` departure. -/
def schedS1 : Schedules := fun k =>
  if k = (1, 2, 7) then some [some 39660] else none

/-- Timetable for `(stopA, line 7)` with a single `10:02:00` departure. -/
def schedS2 : Schedules := fun k =>
  if k = (1, 2, 7) then some [some 36120] else none

/-- Timetable for `(stopA, line 7)` with a single `00:00:10` departure. -/
def schedMid : Schedules := fun k =>
  if k = (1, 2, 7) then some [some 10] else none

/-- An empty timetable: every lookup raises `KeyError`. -/
def schedNone : Schedules := fun _ => none

/-! ### Evaluation of the pipeline on the concrete inputs -/

theorem nsflLoop_A :
    nearest_stop_from_list ((190 : ℝ), -20) (10, 20) [stopA] coordsC =
      (some stopA, 0) := by
  have hmin : min (haversine 190 (-20) 10 20) (haversine 10 20 10 20) = 0 := by
    rw [hav_far, haversine_self]
    exact min_eq_right (by positivity)
  simp [nearest_stop_from_list, nsflLoop, coordsC, Stop.key, stopA, hmin]

theorem nsflLoop_B :
    nearest_stop_from_list ((190 : ℝ), -20) (10, 20) [stopB] coordsC =
      (none, 0) := by
  simp [nearest_stop_from_list, nsflLoop, coordsC, Stop.key, stopB]

theorem nsflLoop_A2 :
    nearest_stop_from_list ((190 : ℝ), -20) (190, -20) [stopA] coordsC =
      (some stopA, Real.pi * 6371) := by
  simp [nearest_stop_from_list, nsflLoop, coordsC, Stop.key, stopA, hav_far]

theorem nsflLoop_B2 :
    nearest_stop_from_list ((190 : ℝ), -20) (190, -20) [stopB] coordsC =
      (none, 0) := by
  simp [nearest_stop_from_list, nsflLoop, coordsC, Stop.key, stopB]

theorem nearestStop_R :
    nearest_stop ((190 : ℝ), -20) (10, 20) 7 coordsC routesR =
      some (some stopA, 0) := by
  simp [nearest_stop, nsLoop, routesR, nsflLoop_A]

theorem nearestStop_RB :
    nearest_stop ((190 : ℝ), -20) (10, 20) 7 coordsC routesRB =
      some (none, 0) := by
  simp [nearest_stop, nsLoop, routesRB, nsflLoop_B]

theorem nearestStop_RAB :
    nearest_stop ((190 : ℝ), -20) (190, -20) 7 coordsC routesRAB =
      some (none, 0) := by
  have hπ : (0 : ℝ) < Real.pi * 6371 := by positivity
  simp [nearest_stop, nsLoop, routesRAB, nsflLoop_A2, nsflLoop_B2, hπ]

theorem approxEval :
    approx_time_at_stop 36000 36060 ((190 : ℝ), -20) (10, 20) (10, 20) =
      some 36060 := by
  have hne : Real.pi * 6371 ≠ 0 := by positivity
  simp [approx_time_at_stop, hav_far, haversine_self, hne]

theorem punctEval :
    get_punctualities busB routesR coordsC =
      some [((36060 : ℝ), stopA, 0)] := by
  simp [get_punctualities, busB, punctLoop, nearestStop_R, coordsC, Stop.key,
    stopA, approxEval]

theorem timesEval :
    get_times_at_stops [((36060 : ℝ), stopA, 0)] = [(36060, (1, 2))] := by
  simp [get_times_at_stops, timesLoop, alistFind, Stop.key, stopA,
    List.insertionSort, List.orderedInsert]

theorem gtd_36060_39660 : get_time_distance (36060 : ℝ) (39660 : ℝ) = 3600 := by
  norm_num [get_time_distance, dtHour, dtMinute, dtSecond]

theorem gtd_36060_36120 : get_time_distance (36060 : ℝ) (36120 : ℝ) = 60 := by
  norm_num [get_time_distance, dtHour, dtMinute, dtSecond]

theorem gtd_86390_10 : get_time_distance (86390 : ℝ) (10 : ℝ) = -86380 := by
  norm_num [get_time_distance, dtHour, dtMinute, dtSecond]

theorem delaysS1 :
    get_list_delays busB schedS1 [((36060 : ℝ), (1, 2))] = some [3600] := by
  simp [get_list_delays, busB, delaysLoop, schedS1, visitDifferences,
    gtd_36060_39660, List.min?]

theorem delaysS2 :
    get_list_delays busB schedS2 [((36060 : ℝ), (1, 2))] = some [60] := by
  simp [get_list_delays, busB, delaysLoop, schedS2, visitDifferences,
    gtd_36060_36120, List.min?]

theorem delaysMid :
    get_list_delays busB schedMid [((86390 : ℝ), (1, 2))] = some [] := by
  simp [get_list_delays, busB, delaysLoop, schedMid, visitDifferences,
    gtd_86390_10, List.min?]

theorem npMedian_3600 : npMedian [3600] = 3600 := by
  norm_num [npMedian, List.insertionSort, List.orderedInsert]

theorem npMedian_60 : npMedian [60] = 60 := by
  norm_num [npMedian, List.insertionSort, List.orderedInsert]

theorem gmdS1 :
    get_median_delay busB routesR coordsC schedS1 = some none := by
  have hl : busB.lines = 7 := rfl
  norm_num [get_median_delay, hl, routesR, punctEval, timesEval, delaysS1,
    npMedian_3600]

theorem gmdS2 :
    get_median_delay busB routesR coordsC schedS2 = some (some 1) := by
  have hl : busB.lines = 7 := rfl
  norm_num [get_median_delay, hl, routesR, punctEval, timesEval, delaysS2,
    npMedian_60]

/-! ### The delay calculator: general lemmas -/

/-- The per-visit delay: minimum of the surviving candidates of one visit;
`none` when the timetable entry is missing or no candidate survives. -/
noncomputable def perVisitDelay (line : ℕ) (schedules : Schedules)
    (time : ℝ) (k : ℕ × ℕ) : Option ℤ :=
  match schedules (k.1, k.2, line) with
  | none => none
  | some scheds => (visitDifferences time scheds).min?

theorem visitDifferences_nonneg (time : ℝ) (scheds : List (Option ℝ)) :
    ∀ d ∈ visitDifferences time scheds, 0 ≤ d := by
  intro d hd
  simp only [visitDifferences, List.mem_filterMap, Option.bind_eq_some] at hd
  obtain ⟨s, _, sched, _, hs⟩ := hd
  split at hs
  · cases hs
    exact le_max_left _ _
  · cases hs

theorem delaysLoop_cons_err (line : ℕ) (sch : Schedules) (t : ℝ) (k : ℕ × ℕ)
    (ts : List (ℝ × ℕ × ℕ)) (h : sch (k.1, k.2, line) = none) :
    delaysLoop line sch ((t, k) :: ts) = none := by
  simp [delaysLoop, h]

theorem delaysLoop_cons_skip (line : ℕ) (sch : Schedules) (t : ℝ) (k : ℕ × ℕ)
    (ts : List (ℝ × ℕ × ℕ)) (scheds : List (Option ℝ))
    (h : sch (k.1, k.2, line) = some scheds)
    (hm : (visitDifferences t scheds).min? = none) :
    delaysLoop line sch ((t, k) :: ts) = delaysLoop line sch ts := by
  simp [delaysLoop, h, hm]

theorem delaysLoop_cons_min (line : ℕ) (sch : Schedules) (t : ℝ) (k : ℕ × ℕ)
    (ts : List (ℝ × ℕ × ℕ)) (scheds : List (Option ℝ)) (m : ℤ)
    (h : sch (k.1, k.2, line) = some scheds)
    (hm : (visitDifferences t scheds).min? = some m) :
    delaysLoop line sch ((t, k) :: ts) =
      (delaysLoop line sch ts).map fun r => m :: r := by
  simp [delaysLoop, h, hm]

/-- When `delaysLoop` returns without raising, its result is exactly the
per-visit minima, and every emitted delay sample is non-negative. -/
theorem delaysLoop_spec (line : ℕ) (sch : Schedules) :
    ∀ (visits : List (ℝ × ℕ × ℕ)) (res : List ℤ),
      delaysLoop line sch visits = some res →
      res = visits.filterMap (fun v => perVisitDelay line sch v.1 v.2) ∧
        ∀ d ∈ res, 0 ≤ d := by
  intro visits
  induction visits with
  | nil =>
    intro res h
    simp only [delaysLoop, Option.some.injEq] at h
    subst h
    simp
  | cons v rest ih =>
    intro res h
    obtain ⟨t, k⟩ := v
    cases hs : sch (k.1, k.2, line) with
    | none =>
      rw [delaysLoop_cons_err line sch t k rest hs] at h
      cases h
    | some scheds =>
      cases hm : (visitDifferences t scheds).min? with
      | none =>
        rw [delaysLoop_cons_skip line sch t k rest scheds hs hm] at h
        obtain ⟨h1, h2⟩ := ih res h
        refine ⟨?_, h2⟩
        rw [List.filterMap_cons]
        simpa [perVisitDelay, hs, hm] using h1
      | some m =>
        rw [delaysLoop_cons_min line sch t k rest scheds m hs hm] at h
        cases hr : delaysLoop line sch rest with
        | none =>
          rw [hr] at h
          cases h
        | some res0 =>
          rw [hr] at h
          simp only [Option.map_some', Option.some.injEq] at h
          subst h
          obtain ⟨h1, h2⟩ := ih res0 hr
          constructor
          · rw [List.filterMap_cons]
            simpa [perVisitDelay, hs, hm] using h1
          · intro d hd
            rcases List.mem_cons.mp hd with hd | hd
            · subst hd
              exact visitDifferences_nonneg t scheds d
                (List.min?_mem (fun a b => min_choice a b) hm)
            · exact h2 d hd

/-! ### The trajectory reducer: general lemmas -/

/-- One step of the best-per-key rule: a later pair replaces the stored one
only when its distance is strictly smaller. -/
noncomputable def stepBest (cur : Option (ℝ × ℝ)) (td : ℝ × ℝ) :
    Option (ℝ × ℝ) :=
  match cur with
  | none => some td
  | some c => if c.2 > td.2 then some td else some c

/-- The `(time, distance)` pair the reducer keeps for stop key `k`: fold of
the strict-improvement rule over the triples whose stop has key `k`. -/
noncomputable def bestForKey (k : ℕ × ℕ) (ps : List (ℝ × Stop × ℝ)) :
    Option (ℝ × ℝ) :=
  (ps.filterMap fun e =>
    if e.2.1.key = k then some (e.1, e.2.2) else none).foldl stepBest none

theorem alistFind_append_none (k : ℕ × ℕ) (m : List ((ℕ × ℕ) × ℝ × ℝ)) :
    ∀ l, alistFind k l = none → alistFind k (l ++ m) = alistFind k m := by
  intro l
  induction l with
  | nil => intro _; rfl
  | cons e rest ih =>
    obtain ⟨k1, v1⟩ := e
    intro h
    by_cases hk : k1 = k
    · simp [alistFind, hk] at h
    · simp only [alistFind, if_neg hk, List.cons_append] at h ⊢
      exact ih h

theorem alistFind_append_some (k : ℕ × ℕ) (v : ℝ × ℝ)
    (m : List ((ℕ × ℕ) × ℝ × ℝ)) :
    ∀ l, alistFind k l = some v → alistFind k (l ++ m) = some v := by
  intro l
  induction l with
  | nil => intro h; cases h
  | cons e rest ih =>
    obtain ⟨k1, v1⟩ := e
    intro h
    by_cases hk : k1 = k
    · simp only [alistFind, if_pos hk, List.cons_append] at h ⊢
      exact h
    · simp only [alistFind, if_neg hk, List.cons_append] at h ⊢
      exact ih h

theorem alistFind_alistSet_self (k : ℕ × ℕ) (v : ℝ × ℝ) :
    ∀ l v0, alistFind k l = some v0 → alistFind k (alistSet k v l) = some v := by
  intro l
  induction l with
  | nil => intro v0 h; cases h
  | cons e rest ih =>
    obtain ⟨k1, v1⟩ := e
    intro v0 h
    by_cases hk : k1 = k
    · simp [alistFind, alistSet, hk]
    · simp only [alistFind, alistSet, if_neg hk] at h ⊢
      exact ih v0 h

theorem alistFind_alistSet_ne (k ks : ℕ × ℕ) (v : ℝ × ℝ) (hne : k ≠ ks) :
    ∀ l, alistFind k (alistSet ks v l) = alistFind k l := by
  intro l
  induction l with
  | nil => rfl
  | cons e rest ih =>
    obtain ⟨k1, v1⟩ := e
    by_cases hk : k1 = ks
    · subst hk
      have hne2 : k1 ≠ k := Ne.symm hne
      simp [alistFind, alistSet, hne2]
    · by_cases hk2 : k1 = k
      · simp [alistFind, alistSet, hk, hk2, hne]
      · simp only [alistFind, alistSet, if_neg hk, if_neg hk2]
        exact ih

theorem alistSet_keys (ks : ℕ × ℕ) (v : ℝ × ℝ) :
    ∀ l, (alistSet ks v l).map Prod.fst = l.map Prod.fst := by
  intro l
  induction l with
  | nil => rfl
  | cons e rest ih =>
    obtain ⟨k1, v1⟩ := e
    by_cases hk : k1 = ks
    · simp [alistSet, hk]
    · simp [alistSet, hk, ih]

theorem alistFind_none_iff (k : ℕ × ℕ) :
    ∀ l, alistFind k l = none ↔ k ∉ l.map Prod.fst := by
  intro l
  induction l with
  | nil => simp [alistFind]
  | cons e rest ih =>
    obtain ⟨k1, v1⟩ := e
    by_cases hk : k1 = k
    · subst hk
      simp [alistFind]
    · simp [alistFind, hk, ih, Ne.symm hk]

theorem alistFind_mem (k : ℕ × ℕ) :
    ∀ l v, alistFind k l = some v → (k, v) ∈ l := by
  intro l
  induction l with
  | nil => intro v h; cases h
  | cons e rest ih =>
    obtain ⟨k1, v1⟩ := e
    intro v h
    by_cases hk : k1 = k
    · subst hk
      have hred : alistFind k1 ((k1, v1) :: rest) = some v1 := by
        simp [alistFind]
      rw [hred] at h
      cases h
      exact List.mem_cons_self _ _
    · simp only [alistFind, if_neg hk] at h
      exact List.mem_cons_of_mem _ (ih v h)

theorem mem_alistFind (k : ℕ × ℕ) (v : ℝ × ℝ) :
    ∀ l, (l.map Prod.fst).Nodup → (k, v) ∈ l → alistFind k l = some v := by
  intro l
  induction l with
  | nil => intro _ h; cases h
  | cons e rest ih =>
    obtain ⟨k1, v1⟩ := e
    intro hnd hm
    rw [List.map_cons, List.nodup_cons] at hnd
    rcases List.mem_cons.mp hm with he | he
    · cases he
      simp [alistFind]
    · have hk : k1 ≠ k := by
        intro h
        subst h
        exact hnd.1 (List.mem_map.mpr ⟨(k1, v), he, rfl⟩)
      simp only [alistFind, if_neg hk]
      exact ih hnd.2 he

theorem timesLoop_cons_new (time : ℝ) (stop : Stop) (dist : ℝ)
    (ps : List (ℝ × Stop × ℝ)) (acc : List ((ℕ × ℕ) × ℝ × ℝ))
    (h : alistFind stop.key acc = none) :
    timesLoop ((time, stop, dist) :: ps) acc =
      timesLoop ps (acc ++ [(stop.key, time, dist)]) := by
  simp [timesLoop, h]

theorem timesLoop_cons_better (time : ℝ) (stop : Stop) (dist : ℝ)
    (ps : List (ℝ × Stop × ℝ)) (acc : List ((ℕ × ℕ) × ℝ × ℝ)) (t0 d0 : ℝ)
    (h : alistFind stop.key acc = some (t0, d0)) (hlt : d0 > dist) :
    timesLoop ((time, stop, dist) :: ps) acc =
      timesLoop ps (alistSet stop.key (time, dist) acc) := by
  simp [timesLoop, h, hlt]

theorem timesLoop_cons_keep (time : ℝ) (stop : Stop) (dist : ℝ)
    (ps : List (ℝ × Stop × ℝ)) (acc : List ((ℕ × ℕ) × ℝ × ℝ)) (t0 d0 : ℝ)
    (h : alistFind stop.key acc = some (t0, d0)) (hge : ¬d0 > dist) :
    timesLoop ((time, stop, dist) :: ps) acc = timesLoop ps acc := by
  simp [timesLoop, h, hge]

/-- The dict entry for key `k` after the accumulation loop is the fold of
the strict-improvement rule over the triples with that key. -/
theorem timesLoop_find (k : ℕ × ℕ) :
    ∀ (ps : List (ℝ × Stop × ℝ)) (acc : List ((ℕ × ℕ) × ℝ × ℝ)),
      alistFind k (timesLoop ps acc) =
        (ps.filterMap fun e =>
          if e.2.1.key = k then some (e.1, e.2.2) else none).foldl stepBest
          (alistFind k acc) := by
  intro ps
  induction ps with
  | nil => intro acc; simp [timesLoop]
  | cons e rest ih =>
    obtain ⟨time, stop, dist⟩ := e
    intro acc
    by_cases hkey : stop.key = k
    · subst hkey
      have hcons : (((time, stop, dist) : ℝ × Stop × ℝ) :: rest).filterMap
          (fun e => if e.2.1.key = stop.key then some (e.1, e.2.2) else none) =
          (time, dist) :: rest.filterMap
            (fun e => if e.2.1.key = stop.key then some (e.1, e.2.2) else none) := by
        simp [List.filterMap_cons]
      rw [hcons, List.foldl_cons]
      cases hfind : alistFind stop.key acc with
      | none =>
        rw [timesLoop_cons_new time stop dist rest acc hfind, ih]
        congr 1
        rw [alistFind_append_none _ _ _ hfind]
        simp [alistFind, stepBest]
      | some v0 =>
        obtain ⟨t0, d0⟩ := v0
        by_cases hlt : d0 > dist
        · rw [timesLoop_cons_better time stop dist rest acc t0 d0 hfind hlt,
            ih]
          congr 1
          rw [alistFind_alistSet_self _ _ _ _ hfind]
          simp [stepBest, hlt]
        · rw [timesLoop_cons_keep time stop dist rest acc t0 d0 hfind hlt, ih]
          congr 1
          rw [hfind]
          simp [stepBest, hlt]
    · have hcons : (((time, stop, dist) : ℝ × Stop × ℝ) :: rest).filterMap
          (fun e => if e.2.1.key = k then some (e.1, e.2.2) else none) =
          rest.filterMap
            (fun e => if e.2.1.key = k then some (e.1, e.2.2) else none) := by
        simp [List.filterMap_cons, hkey]
      rw [hcons]
      cases hfind : alistFind stop.key acc with
      | none =>
        rw [timesLoop_cons_new time stop dist rest acc hfind, ih]
        congr 1
        cases hacc : alistFind k acc with
        | none =>
          rw [alistFind_append_none _ _ _ hacc]
          simp [alistFind, hkey]
        | some v =>
          rw [alistFind_append_some _ _ _ _ hacc]
      | some v0 =>
        obtain ⟨t0, d0⟩ := v0
        by_cases hlt : d0 > dist
        · rw [timesLoop_cons_better time stop dist rest acc t0 d0 hfind hlt,
            ih]
          congr 1
          exact alistFind_alistSet_ne k stop.key (time, dist)
            (fun h => hkey h.symm) acc
        · rw [timesLoop_cons_keep time stop dist rest acc t0 d0 hfind hlt, ih]

/-- The accumulation loop keeps the dict keys free of duplicates. -/
theorem timesLoop_nodup :
    ∀ (ps : List (ℝ × Stop × ℝ)) (acc : List ((ℕ × ℕ) × ℝ × ℝ)),
      (acc.map Prod.fst).Nodup → ((timesLoop ps acc).map Prod.fst).Nodup := by
  intro ps
  induction ps with
  | nil =>
    intro acc h
    simpa [timesLoop] using h
  | cons e rest ih =>
    obtain ⟨time, stop, dist⟩ := e
    intro acc h
    cases hfind : alistFind stop.key acc with
    | none =>
      rw [timesLoop_cons_new time stop dist rest acc hfind]
      apply ih
      rw [List.map_append]
      refine List.Nodup.append h (List.nodup_singleton _) ?_
      intro a ha hb
      simp only [List.map_cons, List.map_nil, List.mem_singleton] at hb
      subst hb
      exact (alistFind_none_iff stop.key acc).mp hfind ha
    | some v0 =>
      obtain ⟨t0, d0⟩ := v0
      by_cases hlt : d0 > dist
      · rw [timesLoop_cons_better time stop dist rest acc t0 d0 hfind hlt]
        apply ih
        rw [alistSet_keys]
        exact h
      · rw [timesLoop_cons_keep time stop dist rest acc t0 d0 hfind hlt]
        exact ih acc h

theorem bestForKey_eq_find (k : ℕ × ℕ) (ps : List (ℝ × Stop × ℝ)) :
    alistFind k (timesLoop ps []) = bestForKey k ps := by
  rw [timesLoop_find k ps []]
  rfl

/-- The keys emitted by the reducer are pairwise distinct. -/
theorem get_times_at_stops_keys_nodup (ps : List (ℝ × Stop × ℝ)) :
    ((get_times_at_stops ps).map fun v => v.2).Nodup := by
  have h0 : ((timesLoop ps []).map Prod.fst).Nodup :=
    timesLoop_nodup ps [] (by simp)
  unfold get_times_at_stops
  rw [List.Perm.nodup_iff ((List.perm_insertionSort _ _).map _),
    List.map_map]
  simpa [Function.comp] using h0

/-- The reducer output is sorted by the lexicographic tuple order. -/
theorem get_times_at_stops_sorted (ps : List (ℝ × Stop × ℝ)) :
    List.Sorted visitLE (get_times_at_stops ps) := by
  unfold get_times_at_stops
  exact List.sorted_insertionSort _ _

/-- The reducer emits `(t, k)` exactly when the strict-improvement fold for
key `k` ends at time `t`. -/
theorem get_times_at_stops_mem (ps : List (ℝ × Stop × ℝ)) (t : ℝ)
    (k : ℕ × ℕ) :
    (t, k) ∈ get_times_at_stops ps ↔ ∃ d, bestForKey k ps = some (t, d) := by
  unfold get_times_at_stops
  rw [(List.perm_insertionSort _ _).mem_iff, List.mem_map]
  constructor
  · rintro ⟨e, he, heq⟩
    obtain ⟨ek, et, ed⟩ := e
    simp only [Prod.mk.injEq] at heq
    obtain ⟨h1, h2⟩ := heq
    subst h1
    subst h2
    refine ⟨ed, ?_⟩
    rw [← bestForKey_eq_find]
    exact mem_alistFind _ _ _ (timesLoop_nodup ps [] (by simp)) he
  · rintro ⟨d, hb⟩
    rw [← bestForKey_eq_find] at hb
    exact ⟨(k, (t, d)), alistFind_mem _ _ _ hb, rfl⟩

/-! ### The nearest-stop search: general lemmas -/

/-- The inner-search distance of a stop: minimum of its haversine distances
to the two segment endpoints (default 0 for a stop with no coordinates;
the results below never rely on that default). -/
noncomputable def segDist (point1 point2 : Point) (stops_coords : StopsCoords)
    (s : Stop) : ℝ :=
  match stops_coords s.key with
  | none => 0
  | some (stop_lon, stop_lat) =>
    min (haversine point1.1 point1.2 stop_lon stop_lat)
      (haversine point2.1 point2.2 stop_lon stop_lat)

/-- The stops of a candidate list present in the coordinate universe. -/
def matchedStops (stops_coords : StopsCoords) (stops : List Stop) :
    List Stop :=
  stops.filter fun s => (stops_coords s.key).isSome

theorem matchedStops_cons_skip (sc : StopsCoords) (stop : Stop)
    (rest : List Stop) (h : sc stop.key = none) :
    matchedStops sc (stop :: rest) = matchedStops sc rest := by
  simp [matchedStops, h]

theorem matchedStops_cons_keep (sc : StopsCoords) (stop : Stop)
    (rest : List Stop) (lo la : ℝ) (h : sc stop.key = some (lo, la)) :
    matchedStops sc (stop :: rest) = stop :: matchedStops sc rest := by
  simp [matchedStops, h]

theorem nsflLoop_cons_skip (p1 p2 : Point) (sc : StopsCoords) (stop : Stop)
    (rest : List Stop) (acc : Option Stop × ℝ) (h : sc stop.key = none) :
    nsflLoop p1 p2 sc (stop :: rest) acc = nsflLoop p1 p2 sc rest acc := by
  simp [nsflLoop, h]

theorem nsflLoop_cons_first (p1 p2 : Point) (sc : StopsCoords) (stop : Stop)
    (rest : List Stop) (lo la : ℝ) (h : sc stop.key = some (lo, la)) :
    nsflLoop p1 p2 sc (stop :: rest) (none, 0) =
      nsflLoop p1 p2 sc rest (some stop, segDist p1 p2 sc stop) := by
  have hd : min (haversine p1.1 p1.2 lo la) (haversine p2.1 p2.2 lo la) =
      segDist p1 p2 sc stop := by
    simp [segDist, h]
  simp [nsflLoop, h, hd]

theorem nsflLoop_cons_update (p1 p2 : Point) (sc : StopsCoords) (stop : Stop)
    (rest : List Stop) (s0 : Stop) (lo la : ℝ)
    (h : sc stop.key = some (lo, la))
    (hlt : segDist p1 p2 sc stop < segDist p1 p2 sc s0) :
    nsflLoop p1 p2 sc (stop :: rest) (some s0, segDist p1 p2 sc s0) =
      nsflLoop p1 p2 sc rest (some stop, segDist p1 p2 sc stop) := by
  have hd : min (haversine p1.1 p1.2 lo la) (haversine p2.1 p2.2 lo la) =
      segDist p1 p2 sc stop := by
    simp [segDist, h]
  simp [nsflLoop, h, hd, hlt]

theorem nsflLoop_cons_keep (p1 p2 : Point) (sc : StopsCoords) (stop : Stop)
    (rest : List Stop) (s0 : Stop) (lo la : ℝ)
    (h : sc stop.key = some (lo, la))
    (hge : ¬segDist p1 p2 sc stop < segDist p1 p2 sc s0) :
    nsflLoop p1 p2 sc (stop :: rest) (some s0, segDist p1 p2 sc s0) =
      nsflLoop p1 p2 sc rest (some s0, segDist p1 p2 sc s0) := by
  have hd : min (haversine p1.1 p1.2 lo la) (haversine p2.1 p2.2 lo la) =
      segDist p1 p2 sc stop := by
    simp [segDist, h]
  simp [nsflLoop, h, hd, hge]

/-- Running the search loop from an already-chosen stop `s0` at its own
distance yields the first minimiser of `s0` followed by the matched stops,
by the strict-improvement rule. -/
theorem nsflLoop_from_some (p1 p2 : Point) (sc : StopsCoords) :
    ∀ (stops : List Stop) (s0 : Stop),
      ∃ w pre post,
        nsflLoop p1 p2 sc stops (some s0, segDist p1 p2 sc s0) =
          (some w, segDist p1 p2 sc w) ∧
        s0 :: matchedStops sc stops = pre ++ w :: post ∧
        (∀ t ∈ pre, segDist p1 p2 sc w < segDist p1 p2 sc t) ∧
        (∀ t ∈ post, segDist p1 p2 sc w ≤ segDist p1 p2 sc t) := by
  intro stops
  induction stops with
  | nil =>
    intro s0
    refine ⟨s0, [], [], rfl, by simp [matchedStops], by simp, by simp⟩
  | cons stop rest ih =>
    intro s0
    cases hsc : sc stop.key with
    | none =>
      obtain ⟨w, pre, post, h1, h2, h3, h4⟩ := ih s0
      refine ⟨w, pre, post, ?_, ?_, h3, h4⟩
      · rw [nsflLoop_cons_skip p1 p2 sc stop rest _ hsc]
        exact h1
      · rw [matchedStops_cons_skip sc stop rest hsc]
        exact h2
    | some xy =>
      obtain ⟨lo, la⟩ := xy
      by_cases hlt : segDist p1 p2 sc stop < segDist p1 p2 sc s0
      · obtain ⟨w, pre, post, h1, h2, h3, h4⟩ := ih stop
        have hwle : segDist p1 p2 sc w ≤ segDist p1 p2 sc stop := by
          cases pre with
          | nil =>
            simp only [List.nil_append] at h2
            injection h2 with hw _
            rw [← hw]
          | cons q pre2 =>
            simp only [List.cons_append] at h2
            injection h2 with hq _
            subst hq
            exact le_of_lt (h3 stop (List.mem_cons_self _ _))
        refine ⟨w, s0 :: pre, post, ?_, ?_, ?_, h4⟩
        · rw [nsflLoop_cons_update p1 p2 sc stop rest s0 lo la hsc hlt]
          exact h1
        · rw [matchedStops_cons_keep sc stop rest lo la hsc]
          simp only [List.cons_append]
          rw [← h2]
        · intro t ht
          rcases List.mem_cons.mp ht with h | h
          · subst h
            exact lt_of_le_of_lt hwle hlt
          · exact h3 t h
      · obtain ⟨w, pre, post, h1, h2, h3, h4⟩ := ih s0
        have hred := nsflLoop_cons_keep p1 p2 sc stop rest s0 lo la hsc hlt
        cases pre with
        | nil =>
          simp only [List.nil_append] at h2
          injection h2 with hw hpost
          subst hw
          refine ⟨s0, [], stop :: post, ?_, ?_, by simp, ?_⟩
          · rw [hred]
            exact h1
          · rw [matchedStops_cons_keep sc stop rest lo la hsc]
            simp only [List.nil_append]
            rw [hpost]
          · intro t ht
            rcases List.mem_cons.mp ht with h | h
            · subst h
              exact not_lt.mp hlt
            · exact h4 t h
        | cons q pre2 =>
          simp only [List.cons_append] at h2
          injection h2 with hq htail
          subst hq
          refine ⟨w, s0 :: stop :: pre2, post, ?_, ?_, ?_, h4⟩
          · rw [hred]
            exact h1
          · rw [matchedStops_cons_keep sc stop rest lo la hsc]
            simp only [List.cons_append]
            rw [htail]
          · intro t ht
            have hDs0 : segDist p1 p2 sc w < segDist p1 p2 sc s0 :=
              h3 s0 (List.mem_cons_self _ _)
            rcases List.mem_cons.mp ht with h | h
            · subst h
              exact hDs0
            · rcases List.mem_cons.mp h with h5 | h5
              · subst h5
                exact lt_of_lt_of_le hDs0 (not_lt.mp hlt)
              · exact h3 t (List.mem_cons_of_mem _ h5)

/-- When no stop of the list has known coordinates the search returns the
initial `(None, 0)` pair. -/
theorem nearest_stop_from_list_empty (p1 p2 : Point) (sc : StopsCoords) :
    ∀ stops, matchedStops sc stops = [] →
      nearest_stop_from_list p1 p2 stops sc = (none, 0) := by
  intro stops
  induction stops with
  | nil => intro _; rfl
  | cons stop rest ih =>
    intro h
    cases hsc : sc stop.key with
    | none =>
      rw [matchedStops_cons_skip sc stop rest hsc] at h
      show nsflLoop p1 p2 sc (stop :: rest) (none, 0) = (none, 0)
      rw [nsflLoop_cons_skip p1 p2 sc stop rest _ hsc]
      exact ih h
    | some xy =>
      obtain ⟨lo, la⟩ := xy
      rw [matchedStops_cons_keep sc stop rest lo la hsc] at h
      cases h

/-- When some stop of the list has known coordinates the search returns the
first minimiser of the matched stops. -/
theorem nearest_stop_from_list_nonempty (p1 p2 : Point) (sc : StopsCoords) :
    ∀ stops, matchedStops sc stops ≠ [] →
      ∃ w pre post,
        nearest_stop_from_list p1 p2 stops sc =
          (some w, segDist p1 p2 sc w) ∧
        matchedStops sc stops = pre ++ w :: post ∧
        (∀ t ∈ pre, segDist p1 p2 sc w < segDist p1 p2 sc t) ∧
        (∀ t ∈ post, segDist p1 p2 sc w ≤ segDist p1 p2 sc t) := by
  intro stops
  induction stops with
  | nil =>
    intro h
    simp [matchedStops] at h
  | cons stop rest ih =>
    intro h
    cases hsc : sc stop.key with
    | none =>
      rw [matchedStops_cons_skip sc stop rest hsc] at h
      obtain ⟨w, pre, post, h1, h2, h3, h4⟩ := ih h
      refine ⟨w, pre, post, ?_, ?_, h3, h4⟩
      · show nsflLoop p1 p2 sc (stop :: rest) (none, 0) = _
        rw [nsflLoop_cons_skip p1 p2 sc stop rest _ hsc]
        exact h1
      · rw [matchedStops_cons_skip sc stop rest hsc]
        exact h2
    | some xy =>
      obtain ⟨lo, la⟩ := xy
      obtain ⟨w, pre, post, h1, h2, h3, h4⟩ := nsflLoop_from_some p1 p2 sc rest stop
      refine ⟨w, pre, post, ?_, ?_, h3, h4⟩
      · show nsflLoop p1 p2 sc (stop :: rest) (none, 0) = _
        rw [nsflLoop_cons_first p1 p2 sc stop rest lo la hsc]
        exact h1
      · rw [matchedStops_cons_keep sc stop rest lo la hsc]
        exact h2

/-- A returned stop is always coordinate-matched, and the returned distance
is its inner-search distance. -/
theorem nearest_stop_from_list_isSome (p1 p2 : Point) (sc : StopsCoords)
    (stops : List Stop) (w : Stop) (d : ℝ)
    (h : nearest_stop_from_list p1 p2 stops sc = (some w, d)) :
    (sc w.key).isSome = true ∧ d = segDist p1 p2 sc w := by
  by_cases hm : matchedStops sc stops = []
  · rw [nearest_stop_from_list_empty p1 p2 sc stops hm] at h
    simp at h
  · obtain ⟨w2, pre, post, h1, h2, _, _⟩ :=
      nearest_stop_from_list_nonempty p1 p2 sc stops hm
    rw [h1] at h
    simp only [Prod.mk.injEq, Option.some.injEq] at h
    obtain ⟨hw, hd⟩ := h
    subst hw
    have hmem : w2 ∈ matchedStops sc stops := by
      rw [h2]
      exact List.mem_append.mpr (Or.inr (List.mem_cons_self _ _))
    exact ⟨(List.mem_filter.mp hmem).2, hd.symm⟩

/-! ### Helper facts shared by the claim theorems -/

theorem approx_time_at_stop_eq (time1 time2 : ℝ)
    (point1 point2 point_stop : Point)
    (h : 0 < haversine point1.1 point1.2 point_stop.1 point_stop.2 +
      haversine point2.1 point2.2 point_stop.1 point_stop.2) :
    approx_time_at_stop time1 time2 point1 point2 point_stop =
      some (time1 + (time2 - time1) *
        (haversine point1.1 point1.2 point_stop.1 point_stop.2 /
          (haversine point1.1 point1.2 point_stop.1 point_stop.2 +
            haversine point2.1 point2.2 point_stop.1 point_stop.2))) := by
  simp only [approx_time_at_stop]
  rw [if_neg (ne_of_gt h)]

theorem interp_bounds (t1 t2 f : ℝ) (ht : t1 ≤ t2) (h0 : 0 ≤ f)
    (h1 : f ≤ 1) : t1 ≤ t1 + (t2 - t1) * f ∧ t1 + (t2 - t1) * f ≤ t2 := by
  constructor <;> nlinarith

/-! ### The claim theorems -/

/-- Claim C1 (amended): malformed timestamps are skipped per measurement
pair, but a segment where the nearest-stop locator returns `(None, _)`
raises an uncaught `TypeError` in `get_punctualities`, and a missing
timetable entry for a visited `(stop, line)` key raises an uncaught
`KeyError` in `get_list_delays`; both abort the whole per-vehicle
computation instead of skipping the item. -/
theorem claim_c1_amended :
    ∀ (line : ℕ) (rd : RoutesData) (sc : StopsCoords) (m1 m2 : Measurement)
      (rest : List Measurement) (sch : Schedules) (t : ℝ) (k : ℕ × ℕ)
      (ts : List (ℝ × ℕ × ℕ)),
      (m1.time = none ∨ m2.time = none →
        punctLoop line rd sc (m1 :: m2 :: rest) =
          punctLoop line rd sc (m2 :: rest)) ∧
      (∀ t1 t2 d, m1.time = some t1 → m2.time = some t2 →
        nearest_stop (m1.lon, m1.lat) (m2.lon, m2.lat) line sc rd =
          some (none, d) →
        punctLoop line rd sc (m1 :: m2 :: rest) = none) ∧
      (sch (k.1, k.2, line) = none →
        delaysLoop line sch ((t, k) :: ts) = none) := by
  intro line rd sc m1 m2 rest sch t k ts
  refine ⟨?_, ?_, ?_⟩
  · rintro (h | h)
    · cases hm2 : m2.time with
      | none => simp [punctLoop, h, hm2]
      | some t2 => simp [punctLoop, h, hm2]
    · cases hm1 : m1.time with
      | none => simp [punctLoop, h, hm1]
      | some t1 => simp [punctLoop, h, hm1]
  · intro t1 t2 d h1 h2 hns
    simp [punctLoop, h1, h2, hns]
  · intro hsch
    exact delaysLoop_cons_err line sch t k ts hsch

/-- Counterexample to claim C1 as stated: on a vehicle whose line has one
route consisting of a coordinate-less stop, `get_punctualities` raises
(models as `none`) instead of skipping the segment; and a timetable miss
makes `get_list_delays` raise instead of skipping the visit. -/
theorem claim_c1_counterexample :
    get_punctualities busB routesRB coordsC = none ∧
      get_list_delays busB schedNone [((36060 : ℝ), (1, 2))] = none := by
  constructor
  · simp [get_punctualities, busB, punctLoop, nearestStop_RB]
  · simp [get_list_delays, busB, delaysLoop, schedNone]

/-- Witness for the amended claim C1, at concrete inputs. -/
theorem claim_c1_witness :
    punctLoop 7 routesRB coordsC
        (⟨none, -20, 190⟩ :: ⟨some 36060, 20, 10⟩ :: []) =
      punctLoop 7 routesRB coordsC (⟨some 36060, 20, 10⟩ :: []) ∧
      punctLoop 7 routesRB coordsC busB.measurements = none ∧
      delaysLoop 7 schedNone [((36060 : ℝ), (1, 2))] = none := by
  refine ⟨?_, ?_, ?_⟩
  · exact (claim_c1_amended 7 routesRB coordsC ⟨none, -20, 190⟩
      ⟨some 36060, 20, 10⟩ [] schedNone 0 (1, 2) []).1 (Or.inl rfl)
  · exact (claim_c1_amended 7 routesRB coordsC ⟨some 36000, -20, 190⟩
      ⟨some 36060, 20, 10⟩ [] schedNone 0 (1, 2) []).2.1 36000 36060 0 rfl rfl
      nearestStop_RB
  · exact (claim_c1_amended 7 routesRB coordsC ⟨none, -20, 190⟩
      ⟨some 36060, 20, 10⟩ [] schedNone 36060 (1, 2) []).2.2 rfl

/-- Claim C2: the outer locator does not return the route-level winner.
With routes `[[stopA], [stopB]]` for line `7`, where `stopA` is matched at
a strictly positive distance and `stopB` has no coordinates, the second
route contributes the `(None, 0)` pair of an all-unmatched inner search,
`0` beats the positive distance, and the locator returns `(None, 0)` even
though `stopA` is the route-level minimum-distance winner. -/
theorem claim_c2_bug :
    nearest_stop ((190 : ℝ), -20) (190, -20) 7 coordsC routesRAB =
        some (none, 0) ∧
      nearest_stop_from_list ((190 : ℝ), -20) (190, -20) [stopA] coordsC =
        (some stopA, Real.pi * 6371) ∧
      (0 : ℝ) < Real.pi * 6371 :=
  ⟨nearestStop_RAB, nsflLoop_A2, by positivity⟩

/-- Claim C3: when the delay calculator returns, every visit contributes
the minimum over the schedule candidates that survive the `> -120` cut,
each clamped by `max 0`, and every emitted delay sample is non-negative. -/
theorem claim_c3 :
    ∀ (bus : Bus) (sch : Schedules) (visits : List (ℝ × ℕ × ℕ))
      (res : List ℤ),
      get_list_delays bus sch visits = some res →
      res = visits.filterMap (fun v => perVisitDelay bus.lines sch v.1 v.2) ∧
        ∀ d ∈ res, 0 ≤ d :=
  fun bus sch visits res h => delaysLoop_spec bus.lines sch visits res h

/-- Witness for claim C3 at a concrete run of the delay calculator. -/
theorem claim_c3_witness :
    ([((36060 : ℝ), ((1 : ℕ), (2 : ℕ)))].filterMap
        fun v => perVisitDelay busB.lines schedS1 v.1 v.2) = [3600] ∧
      ∀ d ∈ ([3600] : List ℤ), 0 ≤ d := by
  have h := claim_c3 busB schedS1 [((36060 : ℝ), (1, 2))] [3600] delaysS1
  exact ⟨h.1.symm, h.2⟩

/-- Claim C4 (amended): when the pipeline raises no exception, the result
is the median of the delay samples divided by 60, and `None` exactly when
there are no samples or the median is at least (not strictly above) 3600
seconds. -/
theorem claim_c4_amended :
    ∀ (bus : Bus) (rd : RoutesData) (sc : StopsCoords) (sch : Schedules)
      (rts : List (List Stop)) (ps : List (ℝ × Stop × ℝ)) (ds : List ℤ),
      rd bus.lines = some rts →
      get_punctualities bus rd sc = some ps →
      get_list_delays bus sch (get_times_at_stops ps) = some ds →
      get_median_delay bus rd sc sch =
        some (if ds = [] then none
          else if npMedian ds < 3600 then some (npMedian ds / 60)
          else none) := by
  intro bus rd sc sch rts ps ds h1 h2 h3
  simp only [get_median_delay, h1, h2, h3]
  by_cases he : ds = [] <;> by_cases hlt : npMedian ds < 3600 <;>
    simp [he, hlt]

/-- Counterexample to claim C4 as stated: a vehicle with exactly one delay
sample of 3600 seconds has a non-empty sample list whose median does not
exceed 3600, yet the code returns `None` (the guard is `median < 3600`,
not `median ≤ 3600`). -/
theorem claim_c4_counterexample :
    get_median_delay busB routesR coordsC schedS1 = some none ∧
      get_punctualities busB routesR coordsC =
        some [((36060 : ℝ), stopA, 0)] ∧
      get_list_delays busB schedS1
          (get_times_at_stops [((36060 : ℝ), stopA, 0)]) = some [3600] ∧
      npMedian [3600] = 3600 ∧ ¬npMedian [3600] > 3600 := by
  refine ⟨gmdS1, punctEval, ?_, npMedian_3600, ?_⟩
  · rw [timesEval]
    exact delaysS1
  · rw [npMedian_3600]
    norm_num

/-- Witness for the amended claim C4: a vehicle with a single 60-second
delay sample gets median delay 1 minute. -/
theorem claim_c4_witness :
    get_median_delay busB routesR coordsC schedS2 = some (some 1) := by
  have h3 : get_list_delays busB schedS2
      (get_times_at_stops [((36060 : ℝ), stopA, 0)]) = some [60] := by
    rw [timesEval]
    exact delaysS2
  have h := claim_c4_amended busB routesR coordsC schedS2 [[stopA]]
    [((36060 : ℝ), stopA, 0)] [60] rfl punctEval h3
  rw [h]
  norm_num [npMedian_60]

/-- Claim C5: the reducer emits at most one visit per stop key, keeps per
key the pair selected by the strict-improvement (smallest distance) rule,
and sorts the output by estimated time with ties broken by stop key. -/
theorem claim_c5 :
    ∀ ps : List (ℝ × Stop × ℝ),
      ((get_times_at_stops ps).map fun v => v.2).Nodup ∧
      List.Sorted visitLE (get_times_at_stops ps) ∧
      ∀ t k, (t, k) ∈ get_times_at_stops ps ↔
        ∃ d, bestForKey k ps = some (t, d) :=
  fun ps => ⟨get_times_at_stops_keys_nodup ps, get_times_at_stops_sorted ps,
    fun t k => get_times_at_stops_mem ps t k⟩

/-- Witness for claim C5 at a concrete reducer input. -/
theorem claim_c5_witness :
    ((36060 : ℝ), ((1 : ℕ), (2 : ℕ))) ∈
        get_times_at_stops [((36060 : ℝ), stopA, 0)] ↔
      ∃ d, bestForKey (1, 2) [((36060 : ℝ), stopA, 0)] = some (36060, d) :=
  (claim_c5 [((36060 : ℝ), stopA, 0)]).2.2 36060 (1, 2)

/-- Claim C6: the inner search returns the first minimiser of
`min(d(A, stop), d(B, stop))` among the coordinate-matched stops, and never
returns a stop absent from the coordinate universe. -/
theorem claim_c6 :
    ∀ (p1 p2 : Point) (stops : List Stop) (sc : StopsCoords),
      (∀ w d, nearest_stop_from_list p1 p2 stops sc = (some w, d) →
        (sc w.key).isSome = true ∧ d = segDist p1 p2 sc w) ∧
      (matchedStops sc stops ≠ [] →
        ∃ w pre post,
          nearest_stop_from_list p1 p2 stops sc =
            (some w, segDist p1 p2 sc w) ∧
          matchedStops sc stops = pre ++ w :: post ∧
          (∀ t ∈ pre, segDist p1 p2 sc w < segDist p1 p2 sc t) ∧
          (∀ t ∈ post, segDist p1 p2 sc w ≤ segDist p1 p2 sc t)) :=
  fun p1 p2 stops sc =>
    ⟨fun w d h => nearest_stop_from_list_isSome p1 p2 sc stops w d h,
      fun h => nearest_stop_from_list_nonempty p1 p2 sc stops h⟩

/-- Witness for claim C6 at a concrete inner search. -/
theorem claim_c6_witness :
    (coordsC stopA.key).isSome = true ∧
      (0 : ℝ) = segDist ((190 : ℝ), -20) (10, 20) coordsC stopA :=
  (claim_c6 ((190 : ℝ), -20) (10, 20) [stopA] coordsC).1 stopA 0 nsflLoop_A

/-- Claim C7: with a positive distance sum the estimator returns exactly
the linear interpolation formula, and with both distances zero the
division-by-zero branch is reached (modelled as `none`). -/
theorem claim_c7 :
    (∀ (time1 time2 : ℝ) (point1 point2 point_stop : Point),
      0 < haversine point1.1 point1.2 point_stop.1 point_stop.2 +
          haversine point2.1 point2.2 point_stop.1 point_stop.2 →
      approx_time_at_stop time1 time2 point1 point2 point_stop =
        some (time1 + (time2 - time1) *
          (haversine point1.1 point1.2 point_stop.1 point_stop.2 /
            (haversine point1.1 point1.2 point_stop.1 point_stop.2 +
              haversine point2.1 point2.2 point_stop.1 point_stop.2)))) ∧
      approx_time_at_stop 0 0 ((10 : ℝ), 20) ((10 : ℝ), 20) ((10 : ℝ), 20) =
        none ∧
      haversine 10 20 10 20 = 0 := by
  refine ⟨approx_time_at_stop_eq, ?_, haversine_self 10 20⟩
  simp [approx_time_at_stop, haversine_self]

/-- Witness for claim C7 at a concrete segment with positive distance sum. -/
theorem claim_c7_witness :
    (0 : ℝ) < haversine 190 (-20) 10 20 + haversine 10 20 10 20 ∧
      approx_time_at_stop 0 60 ((190 : ℝ), -20) (10, 20) (10, 20) =
        some (0 + (60 - 0) * (haversine 190 (-20) 10 20 /
          (haversine 190 (-20) 10 20 + haversine 10 20 10 20))) := by
  have hpos : (0 : ℝ) < haversine 190 (-20) 10 20 + haversine 10 20 10 20 := by
    rw [hav_far, haversine_self]
    positivity
  exact ⟨hpos, claim_c7.1 0 60 ((190 : ℝ), -20) (10, 20) (10, 20) hpos⟩

/-- Claim C8: the geo-distance primitive returns 0 on coincident points and
exactly `π * 6371` (about 20015 km) on antipodal points. -/
theorem claim_c8 :
    (∀ lon lat : ℝ, haversine lon lat lon lat = 0) ∧
      (∀ lon lat : ℝ, haversine lon lat (lon + 180) (-lat) =
        Real.pi * 6371) ∧
      20015 < Real.pi * 6371 ∧ Real.pi * 6371 < 20016 := by
  refine ⟨haversine_self, haversine_antipode, ?_, ?_⟩
  · have h := Real.pi_gt_d6
    nlinarith
  · have h := Real.pi_lt_d6
    nlinarith

/-- Claim C9: the time distance is the plain difference of the two
seconds-of-day, with no wrap-around at midnight; an estimate at 23:59:50
against a schedule at 00:00:10 yields -86380 seconds, which the `> -120`
candidate rule rejects, so no delay sample is emitted. -/
theorem claim_c9 :
    (∀ time1 time2 : ℝ,
      get_time_distance time1 time2 =
        secondsOfDay time2 - secondsOfDay time1) ∧
      get_time_distance (86390 : ℝ) (10 : ℝ) = -86380 ∧
      ¬((-86380 : ℤ) > -120) ∧
      get_list_delays busB schedMid [((86390 : ℝ), (1, 2))] = some [] := by
  refine ⟨?_, gtd_86390_10, by decide, delaysMid⟩
  intro time1 time2
  unfold get_time_distance secondsOfDay
  ring

/-- Claim C10: with ordered times and non-negative distances of positive
sum, the estimated time lies in the closed interval of the two measurement
times. -/
theorem claim_c10 :
    ∀ (time1 time2 : ℝ) (point1 point2 point_stop : Point),
      time1 ≤ time2 →
      0 ≤ haversine point1.1 point1.2 point_stop.1 point_stop.2 →
      0 ≤ haversine point2.1 point2.2 point_stop.1 point_stop.2 →
      0 < haversine point1.1 point1.2 point_stop.1 point_stop.2 +
          haversine point2.1 point2.2 point_stop.1 point_stop.2 →
      ∃ t, approx_time_at_stop time1 time2 point1 point2 point_stop =
          some t ∧ time1 ≤ t ∧ t ≤ time2 := by
  intro time1 time2 point1 point2 point_stop ht h1 h2 hsum
  have hf0 : 0 ≤ haversine point1.1 point1.2 point_stop.1 point_stop.2 /
      (haversine point1.1 point1.2 point_stop.1 point_stop.2 +
        haversine point2.1 point2.2 point_stop.1 point_stop.2) :=
    div_nonneg h1 hsum.le
  have hf1 : haversine point1.1 point1.2 point_stop.1 point_stop.2 /
      (haversine point1.1 point1.2 point_stop.1 point_stop.2 +
        haversine point2.1 point2.2 point_stop.1 point_stop.2) ≤ 1 := by
    rw [div_le_one hsum]
    linarith
  obtain ⟨hb1, hb2⟩ := interp_bounds time1 time2 _ ht hf0 hf1
  exact ⟨_, approx_time_at_stop_eq time1 time2 point1 point2 point_stop hsum,
    hb1, hb2⟩

/-- Witness for claim C10 at a concrete segment. -/
theorem claim_c10_witness :
    ∃ t, approx_time_at_stop 0 60 ((190 : ℝ), -20) (10, 20) (10, 20) =
        some t ∧ (0 : ℝ) ≤ t ∧ t ≤ 60 := by
  have h1 : (0 : ℝ) ≤ haversine 190 (-20) 10 20 := by
    rw [hav_far]
    positivity
  have h2 : (0 : ℝ) ≤ haversine 10 20 10 20 := by
    rw [haversine_self]
  have hsum : (0 : ℝ) < haversine 190 (-20) 10 20 + haversine 10 20 10 20 := by
    rw [hav_far, haversine_self]
    positivity
  exact claim_c10 0 60 ((190 : ℝ), -20) (10, 20) (10, 20) (by norm_num) h1 h2
    hsum

end BusProject
